import Mathlib

/-!
Verification of the connection-handling core of a transparent proxy.

Part 1 embeds `linkerd/app/core/src/proxy/server.rs`:
protocol detection (`ProtocolDetect::detect`) and the per-connection
server (`Server::call`).

Part 2 embeds `linkerd/probe-buffer/src/dispatch.rs`: the dispatch loop
(`Dispatch::poll`) that owns readiness-polling and call-issuing for one
inner service.

Byte streams are modelled as `List Nat` (the bytes readable from the
stream, in order).  The asynchronous environment of the dispatch loop
(the inner service's `poll_ready` results, the channel's `poll` results
and the timer's `poll` results) is modelled by oracle lists consumed in
order; the loop's observable behaviour is an action trace.
-/

/-! ## Part 1: server.rs -/

/-- `Version` from the http module (aliased `HttpVersion` in server.rs):
variant over the two supported HTTP versions. -/
inductive HttpVersion where
  | Http1
  | H2
deriving DecidableEq, Repr

/-- The fixed HTTP/2 connection preface, as bytes:
the well-known constant string `PRI * HTTP/2.0\r\n\r\nSM\r\n\r\n`. -/
def h2Preface : List Nat :=
  [80, 82, 73, 32, 42, 32, 72, 84, 84, 80, 47, 50, 46, 48,
   13, 10, 13, 10, 83, 77, 13, 10, 13, 10]

/-- Modelled from the spec: `HttpVersion::from_prefix` is not under `src/`
(it lives in the http module).  Per the spec, the classification of the
peeked bytes is: a match against the fixed HTTP/2 connection preface
yields `H2`; a match against an HTTP/1 request-line shape yields `Http1`;
anything else yields `None`.  The spec does not pin down the exact
request-line shape, so it is taken as a parameter `isHttp1`. -/
def HttpVersion.fromPeeked (isHttp1 : List Nat → Bool) (pk : List Nat) :
    Option HttpVersion :=
  if List.isPrefixOf h2Preface pk then some .H2
  else if isHttp1 pk then some .Http1
  else none

/-- The part of `tls::accept::Meta` that detection reads:
`tls.addrs.target_addr().port()`. -/
structure TlsMeta where
  target_port : Nat
deriving DecidableEq, Repr

/-- `Protocol`: the outcome of detection for one connection. -/
structure Protocol where
  http : Option HttpVersion
  tls : TlsMeta
deriving DecidableEq, Repr

/-- `ProtocolDetect`: peek capacity plus the set of ports exempt from
detection (`Arc<IndexSet<u16>>`, modelled as a list of ports). -/
structure ProtocolDetect where
  capacity : Nat
  skip_ports : List Nat
deriving DecidableEq, Repr

/-- `ProtocolDetect::PEEK_CAPACITY`. -/
def ProtocolDetect.PEEK_CAPACITY : Nat := 8192

/-- `ProtocolDetect::new`. -/
def ProtocolDetect.new (skip_ports : List Nat) : ProtocolDetect :=
  { skip_ports := skip_ports, capacity := ProtocolDetect.PEEK_CAPACITY }

/-- Result of `ProtocolDetect::detect` on the success path: the detected
`Protocol`, the returned stream's readable bytes, and whether the stream
was peeked at all (instrumentation for the skip-ports claim). -/
structure DetectOk where
  target : Protocol
  io : List Nat
  peeked : Bool
deriving DecidableEq, Repr

/-- `ProtocolDetect::detect`.  If the target port is in `skip_ports`,
return `Protocol { tls, http: None }` with the stream untouched.
Otherwise peek up to `capacity` bytes (modelled from the spec: the
peekable stream abstraction is not under `src/`; peeking reads the first
`capacity` readable bytes and consumes nothing, and the returned
`BoxedIo::new(peek)` makes the same bytes readable again), classify the
peeked bytes, and return the stream with its bytes unchanged. -/
def ProtocolDetect.detect (self : ProtocolDetect) (isHttp1 : List Nat → Bool)
    (tls : TlsMeta) (io : List Nat) : DetectOk :=
  let port := tls.target_port
  if self.skip_ports.contains port then
    { target := { tls := tls, http := none }, io := io, peeked := false }
  else
    let pk := io.take self.capacity
    let http := HttpVersion.fromPeeked isHttp1 pk
    { target := { tls := tls, http := http }, io := io, peeked := true }

/-- Modelled from the spec: the drain primitive (the drain crate is not
under `src/`).  The two modes the server uses to wrap a connection's
completion future: `ignore_signal().release_after(..)` for raw TCP
forwards, and `watch(.., graceful_shutdown)` for HTTP serving. -/
inductive DrainWrap where
  | ignoreSignal
  | watch
deriving DecidableEq, Repr

/-- Modelled from the spec: one poll of a drain-wrapped completion future
whose inner future needs `left` more polls to complete naturally.
In ignore-signal mode the shutdown signal is ignored and the inner future
just advances; in watch mode a shutdown signal triggers the graceful
shutdown callback (modelled as completing the connection). -/
def DrainWrap.pollOnce : DrainWrap → Bool → Nat → Nat
  | .ignoreSignal, _, left => left - 1
  | .watch, true, _ => 0
  | .watch, false, left => left - 1

/-- Run a drain-wrapped completion future for `n` polls under the
shutdown-signal schedule `σ`; returns the polls still needed.  The future
has completed — and only then is its drain handle released, letting drain
quiescence resolve — exactly when this reaches `0`. -/
def DrainWrap.run (w : DrainWrap) (σ : Nat → Bool) (left : Nat) : Nat → Nat
  | 0 => left
  | n + 1 => w.pollOnce (σ n) (DrainWrap.run w σ left n)

/-- The inner phase of `Server::call`: how the accepted connection is
driven to completion.  `forward` carries the conn future obtained from
the forward capability (modelled as the number of polls it needs) and is
wrapped per the source with `drain.ignore_signal().release_after(..)`;
the HTTP variants carry the constructed per-connection service, are
driven by the hyper builder (`http1_only` with upgrade support, resp.
`http2_only`), and are wrapped with `drain.watch(.., graceful_shutdown)`. -/
inductive ConnPlan (Svc : Type) where
  | forward (wrap : DrainWrap) (connPolls : Nat)
  | http1 (svc : Svc) (upgrades : Bool) (wrap : DrainWrap)
  | h2 (svc : Svc) (wrap : DrainWrap)

/-- `Server`: the per-connection orchestrator.  The forward capability is
an async operation on `(tls_meta, stream)` whose completion future is
modelled by the number of polls it needs; the HTTP factory builds a
per-connection service from the connection's TLS metadata. -/
structure Server (Svc : Type) where
  forward_tcp : TlsMeta × List Nat → Nat
  make_http : TlsMeta → Svc

/-- Observable outcome of `Server::call` on one connection: every
invocation of the forward capability (with its argument), every
invocation of the HTTP factory (with its argument), and the plan for
driving the connection. -/
structure CallResult (Svc : Type) where
  forwardCalls : List (TlsMeta × List Nat)
  httpNewCalls : List TlsMeta
  conn : ConnPlan Svc

/-- `Server::call`.  `http = None`: clone the forward capability, invoke
it once with `(proto.tls, io)` and wrap the resulting conn future in
ignore-signal drain mode.  Otherwise build the per-connection HTTP
service from `proto.tls` and drive an HTTP/1 (with upgrade support) or
HTTP/2 serving loop under the drain watch. -/
def Server.call {Svc : Type} (s : Server Svc) (proto : Protocol)
    (io : List Nat) : CallResult Svc :=
  match proto.http with
  | none =>
    { forwardCalls := [(proto.tls, io)]
      httpNewCalls := []
      conn := .forward .ignoreSignal (s.forward_tcp (proto.tls, io)) }
  | some v =>
    let http_svc := s.make_http proto.tls
    match v with
    | .Http1 =>
      { forwardCalls := []
        httpNewCalls := [proto.tls]
        conn := .http1 http_svc true .watch }
    | .H2 =>
      { forwardCalls := []
        httpNewCalls := [proto.tls]
        conn := .h2 http_svc .watch }

/-! ## Part 2: dispatch.rs -/

/-- Modelled from the spec: `InFlight` (declared in the probe-buffer
crate's lib.rs, not under `src/`): a queued request paired with a
one-shot reply sender, identified here by a sender id `tx`. -/
structure InFlight (Req : Type) where
  request : Req
  tx : Nat
deriving DecidableEq, Repr

/-- Modelled from the spec: `Failed` (the probe-buffer crate's error
module, not under `src/`): a reference-counted wrapper around one error;
clones of the same `Failed` are equal values. -/
structure Failed where
  err : Nat
deriving DecidableEq, Repr

/-- One result of polling the inner service's readiness
(`inner.poll_ready()`). -/
inductive ReadyRes where
  | ready
  | notReady
  | err (e : Nat)
deriving DecidableEq, Repr

/-- One result of polling the request channel (`rx.poll()`). -/
inductive RxRes (Req : Type) where
  | item (envl : InFlight Req)
  | closed
  | pending
  | recvErr
deriving DecidableEq, Repr

/-- One result of polling a timer (`Delay::poll`): not yet elapsed,
elapsed, or a timer error (the source treats the latter two alike). -/
inductive TimerRes where
  | notYet
  | elapsed
  | timerErr
deriving DecidableEq, Repr

/-- Observable actions of one execution of `Dispatch::poll`:
polling readiness, polling the channel, dispatching a call (whose
completion will reply on `tx`), sending a failure reply during the
failure broadcast, arming a probe `Delay` for `timeout`, and evaluating
`debug_assert!(self.probe.is_none())` at the bottom of the loop body
(`ok` records whether the assertion holds there). -/
inductive Act (Req : Type) where
  | pollReady
  | pollRx
  | call (request : Req) (tx : Nat)
  | failSend (tx : Nat) (failed : Failed)
  | armProbe (timeout : Nat)
  | assertProbeNone (ok : Bool)
deriving DecidableEq, Repr

/-- Result of `Dispatch::poll` — the Rust type is
`Poll<(), Never>`, so `readyOk` is `Ok(Async::Ready(()))` (normal
termination; the error type `Never` has no values) and `notReady` is
`Ok(Async::NotReady)`.  `fuelOut` marks exhaustion of the step budget
of the fuelled interpreter and is unreachable with the canonical fuel. -/
inductive PollRes where
  | notReady
  | readyOk
  | fuelOut
deriving DecidableEq, Repr

/-- The `Dispatch` state.  `inner` models the inner service by its
successive `poll_ready` results; `rx` models the channel by its
successive `poll` results; `timer` models the timer by the successive
results of `Delay` polls (an exhausted oracle behaves as pending /
not yet elapsed); `probe_timeout` and `probe` are the corresponding
source fields (`probe : Option Unit` — the armed `Delay`'s firing is
read from the `timer` oracle). -/
structure Dispatch (Req : Type) where
  inner : List ReadyRes
  rx : List (RxRes Req)
  timer : List TimerRes
  probe_timeout : Nat
  probe : Option Unit
deriving DecidableEq, Repr

/-- Outcome of one iteration of the `loop` body in `Dispatch::poll`:
either the iteration returns from `poll` (`done`, with the emitted
actions, the returned value and the final state), or it falls through to
the next iteration (`next`). -/
inductive StepRes (Req : Type) where
  | done (acts : List (Act Req)) (res : PollRes) (d : Dispatch Req)
  | next (acts : List (Act Req)) (d : Dispatch Req)

/-- The failure broadcast (dispatch.rs lines 73-76):
`while let Ok(Async::Ready(Some(InFlight { tx, .. }))) = self.rx.poll()`
sends `Err(shared.clone())` to each queued envelope, stopping at the
first non-item poll result.  Returns the emitted actions and the
channel-oracle leftover. -/
def drainAll {Req : Type} (f : Failed) :
    List (RxRes Req) → List (Act Req) × List (RxRes Req)
  | .item e :: rest =>
    let dr := drainAll f rest
    (.pollRx :: .failSend e.tx f :: dr.1, dr.2)
  | _ :: rest => ([.pollRx], rest)
  | [] => ([.pollRx], [])

/-- Lines 101-107 of dispatch.rs: the channel had no envelope ready, so
create a fresh `Delay` for `probe_timeout` and poll it: if it is not yet
elapsed, store it in `self.probe` and return `NotReady`; otherwise
(elapsed or timer error) fall through to the bottom of the loop body and
iterate again.  `acts` are the actions emitted earlier this iteration. -/
def Dispatch.armProbePhase {Req : Type} (d : Dispatch Req)
    (acts : List (Act Req)) : StepRes Req :=
  match d.timer with
  | .notYet :: trest =>
    .done (acts ++ [.armProbe d.probe_timeout]) .notReady
      { d with timer := trest, probe := some () }
  | _ :: trest =>
    .next (acts ++ [.armProbe d.probe_timeout, .assertProbeNone d.probe.isNone])
      { d with timer := trest }
  | [] =>
    .done (acts ++ [.armProbe d.probe_timeout]) .notReady
      { d with probe := some () }

/-- Lines 86-110 of dispatch.rs: poll the channel.  A closed channel or a
receive error returns `Ok(Async::Ready(()))`; an envelope is dispatched
(`inner.call` spawned, replying on its `tx`) and the loop body ends at
the `debug_assert!(self.probe.is_none())`; no envelope leads to the
probe-arming phase. -/
def Dispatch.recvPhase {Req : Type} (d : Dispatch Req)
    (acts : List (Act Req)) : StepRes Req :=
  match d.rx with
  | .closed :: rest => .done (acts ++ [.pollRx]) .readyOk { d with rx := rest }
  | .recvErr :: rest => .done (acts ++ [.pollRx]) .readyOk { d with rx := rest }
  | .item e :: rest =>
    .next (acts ++ [.pollRx, .call e.request e.tx, .assertProbeNone d.probe.isNone])
      { d with rx := rest }
  | .pending :: rest =>
    Dispatch.armProbePhase { d with rx := rest } (acts ++ [.pollRx])
  | [] => Dispatch.armProbePhase d (acts ++ [.pollRx])

/-- Lines 64-83 of dispatch.rs: `needs_ready` was true, so poll the inner
service's readiness.  `NotReady` suspends the task; an error builds one
shared `Failed`, broadcasts it to every queued envelope and returns
`Ok(Async::Ready(()))`; `Ready` proceeds to the receive phase. -/
def Dispatch.readyPhase {Req : Type} (d : Dispatch Req) : StepRes Req :=
  match d.inner with
  | .notReady :: rest => .done [.pollReady] .notReady { d with inner := rest }
  | .err e :: rest =>
    let dr := drainAll (Failed.mk e) d.rx
    .done (.pollReady :: dr.1) .readyOk { d with inner := rest, rx := dr.2 }
  | .ready :: rest => Dispatch.recvPhase { d with inner := rest } [.pollReady]
  | [] => .done [.pollReady] .notReady d

/-- One iteration of the `loop` body of `Dispatch::poll` (lines 50-111).
With no probe armed, readiness must be polled.  With a probe armed, the
probe is polled first: not yet elapsed means the inner service is
already known ready, so skip straight to the receive phase; an elapsed
(or failed) probe is cleared and readiness is re-polled. -/
def Dispatch.step {Req : Type} (d : Dispatch Req) : StepRes Req :=
  match d.probe with
  | none => Dispatch.readyPhase d
  | some _ =>
    match d.timer with
    | .notYet :: trest => Dispatch.recvPhase { d with timer := trest } []
    | _ :: trest =>
      Dispatch.readyPhase { d with timer := trest, probe := none }
    | [] => Dispatch.recvPhase d []

/-- The fuelled interpreter of `Dispatch::poll`: iterate the loop body.
`fuel` bounds the number of iterations; with the canonical fuel of
`Dispatch.poll` it never runs out, since every iteration that loops
again consumes at least one oracle entry. -/
def Dispatch.pollLoop {Req : Type} :
    Nat → Dispatch Req → List (Act Req) × PollRes × Dispatch Req
  | 0, d => ([], .fuelOut, d)
  | fuel + 1, d =>
    match Dispatch.step d with
    | .done acts res d2 => (acts, res, d2)
    | .next acts d2 =>
      let r := Dispatch.pollLoop fuel d2
      (acts ++ r.1, r.2.1, r.2.2)

/-- A fuel amount sufficient for `pollLoop` to run `Dispatch::poll` to
its returned value: one more than the total length of the oracles. -/
def Dispatch.pollFuel {Req : Type} (d : Dispatch Req) : Nat :=
  d.inner.length + d.rx.length + d.timer.length + 1

/-- `Dispatch::poll`: the emitted action trace, the returned
`Poll<(), Never>` value, and the final state. -/
def Dispatch.poll {Req : Type} (d : Dispatch Req) :
    List (Act Req) × PollRes × Dispatch Req :=
  Dispatch.pollLoop d.pollFuel d

/-! ## Trace observations -/

/-- The actions emitted by one iteration of the loop body. -/
def StepRes.acts {Req : Type} : StepRes Req → List (Act Req)
  | .done a _ _ => a
  | .next a _ => a

/-- The dispatched calls in a trace, in order: `(request, tx)` pairs. -/
def callReqs {Req : Type} : List (Act Req) → List (Req × Nat)
  | [] => []
  | .call q t :: rest => (q, t) :: callReqs rest
  | _ :: rest => callReqs rest

/-- The envelopes an rx oracle would deliver, in channel order. -/
def rxItems {Req : Type} : List (RxRes Req) → List (Req × Nat)
  | [] => []
  | .item e :: rest => (e.request, e.tx) :: rxItems rest
  | _ :: rest => rxItems rest

/-- The reply targets of a trace, in order: each dispatched call will
reply on its `tx` when its spawned completion finishes, and each failure
broadcast sends one reply on its `tx`. -/
def replyTxs {Req : Type} : List (Act Req) → List Nat
  | [] => []
  | .call _ t :: rest => t :: replyTxs rest
  | .failSend t _ :: rest => t :: replyTxs rest
  | _ :: rest => replyTxs rest

/-- The `tx` ids of the envelopes an rx oracle would deliver, in order. -/
def itemTxs {Req : Type} : List (RxRes Req) → List Nat
  | [] => []
  | .item e :: rest => e.tx :: itemTxs rest
  | _ :: rest => itemTxs rest

/-- The `tx` ids of the envelopes queued in the channel right now: the
envelopes deliverable before the first non-item poll result. -/
def leadingItemTxs {Req : Type} : List (RxRes Req) → List Nat
  | .item e :: rest => e.tx :: leadingItemTxs rest
  | _ => []

/-- The failure-broadcast reply targets of a trace, in order. -/
def sendTxs {Req : Type} : List (Act Req) → List Nat
  | [] => []
  | .failSend t _ :: rest => t :: sendTxs rest
  | _ :: rest => sendTxs rest

/-- The property claimed of the dispatch loop's traces by the sentence
"after invoking the inner service the loop returns to the receive phase
without re-polling the inner service's readiness before attempting to
take the next envelope": scanning the trace, once a call has been
dispatched (state `true`), a readiness poll must not occur before the
next channel poll. -/
def c6Holds {Req : Type} : Bool → List (Act Req) → Bool
  | _, [] => true
  | true, .pollReady :: _ => false
  | true, .pollRx :: rest => c6Holds false rest
  | _, .call _ _ :: rest => c6Holds true rest
  | b, _ :: rest => c6Holds b rest

/-! ## Theorems: server.rs -/

/-- A future wrapped in ignore-signal drain mode advances one poll per
step regardless of the shutdown-signal schedule. -/
theorem drainIgnore_run (σ : Nat → Bool) (left n : Nat) :
    DrainWrap.run .ignoreSignal σ left n = left - n := by
  induction n with
  | zero => rfl
  | succ k ih =>
    simp only [DrainWrap.run, DrainWrap.pollOnce, ih]
    omega

/-- Claim C1: for a connection whose target port is not in the skip set,
`detect` classifies the peeked bytes — the HTTP/2 connection preface
yields `H2`, otherwise an HTTP/1 request-line shape yields `Http1`,
anything else yields `http = None` — and in every case the bytes
readable from the returned stream equal the bytes of the original
stream. -/
theorem detect_classifies_and_preserves (d : ProtocolDetect)
    (isHttp1 : List Nat → Bool) (tls : TlsMeta) (io : List Nat)
    (h : d.skip_ports.contains tls.target_port = false) :
    (d.detect isHttp1 tls io).io = io ∧
    (List.isPrefixOf h2Preface (io.take d.capacity) = true →
      (d.detect isHttp1 tls io).target.http = some HttpVersion.H2) ∧
    (List.isPrefixOf h2Preface (io.take d.capacity) = false →
      isHttp1 (io.take d.capacity) = true →
      (d.detect isHttp1 tls io).target.http = some HttpVersion.Http1) ∧
    (List.isPrefixOf h2Preface (io.take d.capacity) = false →
      isHttp1 (io.take d.capacity) = false →
      (d.detect isHttp1 tls io).target.http = none) := by
  refine ⟨?_, ?_, ?_, ?_⟩ <;>
    simp only [ProtocolDetect.detect, HttpVersion.fromPeeked, h,
      Bool.false_eq_true, if_false]
  · intro hb
    simp [hb]
  · intro hb hq
    simp [hb, hq]
  · intro hb hq
    simp [hb, hq]

/-- Witness for C1 at a concrete input. -/
theorem detect_classifies_and_preserves_witness :
    (ProtocolDetect.new []).skip_ports.contains (80 : Nat) = false ∧
    ((ProtocolDetect.new []).detect (fun _ => false) ⟨80⟩ [1, 2, 3]).io
      = [1, 2, 3] ∧
    ((ProtocolDetect.new []).detect (fun _ => false) ⟨80⟩ [1, 2, 3]).target.http
      = none :=
  ⟨by decide,
    (detect_classifies_and_preserves _ _ ⟨80⟩ [1, 2, 3] (by decide)).1,
    (detect_classifies_and_preserves _ _ ⟨80⟩ [1, 2, 3] (by decide)).2.2.2
      (by decide) rfl⟩

/-- Claim C2: for a connection whose target port is in the skip set,
`detect` performs no peek and returns `Protocol { http: None, tls }` with
the stream unchanged. -/
theorem detect_skips_configured_port (d : ProtocolDetect)
    (isHttp1 : List Nat → Bool) (tls : TlsMeta) (io : List Nat)
    (h : d.skip_ports.contains tls.target_port = true) :
    d.detect isHttp1 tls io =
      { target := { http := none, tls := tls }, io := io, peeked := false } := by
  have h' : tls.target_port ∈ d.skip_ports := by simpa using h
  simp [ProtocolDetect.detect, h']

/-- Witness for C2 at a concrete input. -/
theorem detect_skips_configured_port_witness :
    (ProtocolDetect.new [25]).skip_ports.contains (25 : Nat) = true ∧
    (ProtocolDetect.new [25]).detect (fun _ => true) ⟨25⟩ [1, 2] =
      { target := { http := none, tls := ⟨25⟩ }, io := [1, 2], peeked := false } :=
  ⟨by decide, detect_skips_configured_port _ _ ⟨25⟩ [1, 2] (by decide)⟩

/-- Claim C3: on a connection with `http = None`, `Server::call` invokes
the TCP-forward capability exactly once, with `(tls_meta, stream)`, and
never invokes the HTTP service factory. -/
theorem server_forwards_exactly_once {Svc : Type} (s : Server Svc)
    (proto : Protocol) (io : List Nat) (h : proto.http = none) :
    (s.call proto io).forwardCalls = [(proto.tls, io)] ∧
    (s.call proto io).httpNewCalls = [] := by
  constructor <;> simp [Server.call, h]

/-- Witness for C3 at a concrete input. -/
theorem server_forwards_exactly_once_witness :
    (Protocol.mk none ⟨99⟩).http = none ∧
    ((Server.mk (fun _ => 2) (fun _ => ()) : Server Unit).call
      (Protocol.mk none ⟨99⟩) [3]).forwardCalls = [(⟨99⟩, [3])] ∧
    ((Server.mk (fun _ => 2) (fun _ => ()) : Server Unit).call
      (Protocol.mk none ⟨99⟩) [3]).httpNewCalls = [] :=
  ⟨rfl,
    (server_forwards_exactly_once (Server.mk (fun _ => 2) (fun _ => ()))
      (Protocol.mk none ⟨99⟩) [3] rfl).1,
    (server_forwards_exactly_once (Server.mk (fun _ => 2) (fun _ => ()))
      (Protocol.mk none ⟨99⟩) [3] rfl).2⟩

/-- Claim C4: on the forwarding branch (`http = None`), the connection's
completion future is wrapped in the drain's ignore-signal mode, under
which polling is independent of the shutdown-signal schedule and the
future completes — releasing its drain handle, the condition for drain
quiescence — exactly upon the forward's natural completion, never
earlier. -/
theorem forward_shielded_from_shutdown {Svc : Type} (s : Server Svc)
    (proto : Protocol) (io : List Nat) (h : proto.http = none) :
    (s.call proto io).conn
      = .forward .ignoreSignal (s.forward_tcp (proto.tls, io)) ∧
    (∀ (σ σ' : Nat → Bool) (left n : Nat),
      DrainWrap.run .ignoreSignal σ left n
        = DrainWrap.run .ignoreSignal σ' left n) ∧
    (∀ (σ : Nat → Bool) (left n : Nat),
      DrainWrap.run .ignoreSignal σ left n = 0 ↔ left ≤ n) := by
  refine ⟨by simp [Server.call, h], ?_, ?_⟩
  · intro σ σ' left n
    rw [drainIgnore_run, drainIgnore_run]
  · intro σ left n
    rw [drainIgnore_run]
    omega

/-- Witness for C4 at a concrete input. -/
theorem forward_shielded_from_shutdown_witness :
    (Protocol.mk none ⟨7⟩).http = none ∧
    ((Server.mk (fun _ => 2) (fun _ => ()) : Server Unit).call
      (Protocol.mk none ⟨7⟩) [4]).conn
      = ConnPlan.forward DrainWrap.ignoreSignal 2 ∧
    DrainWrap.run .ignoreSignal (fun _ => true) 2 1
      = DrainWrap.run .ignoreSignal (fun _ => false) 2 1 ∧
    (DrainWrap.run .ignoreSignal (fun _ => true) 2 2 = 0 ↔ 2 ≤ 2) :=
  ⟨rfl,
    (forward_shielded_from_shutdown (Server.mk (fun _ => 2) (fun _ => ()))
      (Protocol.mk none ⟨7⟩) [4] rfl).1,
    (forward_shielded_from_shutdown (Server.mk (fun _ => 2) (fun _ => ()))
      (Protocol.mk none ⟨7⟩) [4] rfl).2.1 _ _ 2 1,
    (forward_shielded_from_shutdown (Server.mk (fun _ => 2) (fun _ => ()))
      (Protocol.mk none ⟨7⟩) [4] rfl).2.2 _ 2 2⟩

/-! ## Theorems: dispatch.rs -/

/-- The failure broadcast dispatches no call to the inner service. -/
theorem drainAll_no_call {Req : Type} (f : Failed) (rx : List (RxRes Req))
    (q : Req) (t : Nat) : Act.call q t ∉ (drainAll f rx).1 := by
  induction rx with
  | nil => simp [drainAll]
  | cons hd tl ih => cases hd <;> simp [drainAll, ih]

/-- Every failure reply sent by the broadcast carries the one shared
`Failed` value. -/
theorem drainAll_failSend {Req : Type} (f : Failed) (rx : List (RxRes Req))
    (t : Nat) (g : Failed) :
    Act.failSend t g ∈ (drainAll f rx).1 → g = f := by
  induction rx with
  | nil => simp [drainAll]
  | cons hd tl ih =>
    cases hd <;> simp [drainAll]
    intro hmem
    rcases hmem with ⟨rfl, rfl⟩ | hmem
    · rfl
    · exact ih hmem

/-- The failure broadcast replies to exactly the envelopes queued in the
channel at that instant, in order. -/
theorem drainAll_sendTxs {Req : Type} (f : Failed) (rx : List (RxRes Req)) :
    sendTxs (drainAll f rx).1 = leadingItemTxs rx := by
  induction rx with
  | nil => simp [drainAll, sendTxs, leadingItemTxs]
  | cons hd tl ih => cases hd <;> simp [drainAll, sendTxs, leadingItemTxs, ih]

/-- Claim C5: when the inner service's readiness check returns a
permanent failure, the loop builds one shared `Failed` value from the
error, sends a reply carrying that same value to every envelope already
queued in the channel at that instant, dispatches no further request to
the inner service, and terminates. -/
theorem dispatch_failure_broadcast {Req : Type} (fuel : Nat)
    (d : Dispatch Req) (e : Nat) (rest : List ReadyRes)
    (hp : d.probe = none) (hr : d.inner = .err e :: rest) :
    Dispatch.pollLoop (fuel + 1) d =
      (.pollReady :: (drainAll (Failed.mk e) d.rx).1, .readyOk,
        { d with inner := rest, rx := (drainAll (Failed.mk e) d.rx).2 }) ∧
    sendTxs (drainAll (Failed.mk e) d.rx).1 = leadingItemTxs d.rx ∧
    (∀ t g, Act.failSend t g ∈ (drainAll (Failed.mk e) d.rx).1 →
      g = Failed.mk e) ∧
    (∀ q t, Act.call q t ∉
      (Act.pollReady :: (drainAll (Failed.mk e) d.rx).1 : List (Act Req))) := by
  refine ⟨?_, drainAll_sendTxs _ _, fun t g => drainAll_failSend _ _ t g, ?_⟩
  · simp [Dispatch.pollLoop, Dispatch.step, hp, Dispatch.readyPhase, hr]
  · intro q t
    simp only [List.mem_cons]
    rintro (h | h)
    · exact absurd h (by simp)
    · exact drainAll_no_call _ _ q t h

/-- Witness for C5 at a concrete input. -/
theorem dispatch_failure_broadcast_witness :
    ({ inner := [.err 42], rx := [.item ⟨10, 1⟩, .item ⟨20, 2⟩, .pending],
       timer := [], probe_timeout := 5, probe := none } : Dispatch Nat).probe
      = none ∧
    Dispatch.pollLoop 1
      ({ inner := [.err 42], rx := [.item ⟨10, 1⟩, .item ⟨20, 2⟩, .pending],
         timer := [], probe_timeout := 5, probe := none } : Dispatch Nat) =
      ([.pollReady, .pollRx, .failSend 1 ⟨42⟩, .pollRx, .failSend 2 ⟨42⟩,
        .pollRx], .readyOk,
       { inner := [], rx := [], timer := [], probe_timeout := 5,
         probe := none }) ∧
    sendTxs (drainAll (Failed.mk 42)
      ([.item ⟨10, 1⟩, .item ⟨20, 2⟩, .pending] : List (RxRes Nat))).1
      = [1, 2] :=
  ⟨rfl,
    (dispatch_failure_broadcast 0 _ 42 [] rfl rfl).1,
    (dispatch_failure_broadcast 0
      ({ inner := [.err 42], rx := [.item ⟨10, 1⟩, .item ⟨20, 2⟩, .pending],
         timer := [], probe_timeout := 5, probe := none } : Dispatch Nat)
      42 [] rfl rfl).2.1⟩

/-- Claim C10 (refuting theorem): the reachable scenario in which a probe
timer was armed on an earlier poll and has not yet elapsed, and an
envelope then arrives.  The loop dispatches the envelope with the probe
field still `Some`, so the `debug_assert!(self.probe.is_none())` at the
bottom of the loop body is evaluated with a false condition: the code
violates its own assertion. -/
theorem dispatch_probe_assert_violated :
    (Dispatch.poll ({ inner := [], rx := [.item ⟨7, 1⟩],
                      timer := [.notYet], probe_timeout := 5,
                      probe := some () } : Dispatch Nat)).1 =
      [.pollRx, .call 7 1, .assertProbeNone false, .pollRx, .armProbe 5] ∧
    Act.assertProbeNone false ∈
      (Dispatch.poll ({ inner := [], rx := [.item ⟨7, 1⟩],
                        timer := [.notYet], probe_timeout := 5,
                        probe := some () } : Dispatch Nat)).1 := by
  constructor <;> decide

/-- Claim C6 as stated is false on the code: with two envelopes queued
and the inner service staying ready, the loop polls the inner service's
readiness again between dispatching the first envelope and polling the
channel for the second. -/
theorem dispatch_no_repoll_refuted :
    c6Holds false
      (Dispatch.poll ({ inner := [.ready, .ready],
                        rx := [.item ⟨10, 1⟩, .item ⟨20, 2⟩, .closed],
                        timer := [], probe_timeout := 5,
                        probe := none } : Dispatch Nat)).1 = false := by
  decide

/-- Every loop-body iteration's trace extends the actions already
emitted this iteration. -/
theorem pollLoop_trace_decomp {Req : Type} (fuel : Nat) (d : Dispatch Req) :
    ∃ s, (Dispatch.pollLoop (fuel + 1) d).1 = (Dispatch.step d).acts ++ s := by
  cases hs : Dispatch.step d with
  | done a r d2 => exact ⟨[], by simp [Dispatch.pollLoop, hs, StepRes.acts]⟩
  | next a d2 =>
    exact ⟨(Dispatch.pollLoop fuel d2).1,
      by simp [Dispatch.pollLoop, hs, StepRes.acts]⟩

/-- The probe-arming phase appends to the actions already emitted. -/
theorem armProbePhase_acts_append {Req : Type} (d : Dispatch Req)
    (acts : List (Act Req)) :
    ∃ s, (Dispatch.armProbePhase d acts).acts = acts ++ s := by
  cases htimer : d.timer with
  | nil =>
    exact ⟨[.armProbe d.probe_timeout],
      by simp [Dispatch.armProbePhase, htimer, StepRes.acts]⟩
  | cons t trest =>
    cases t
    · exact ⟨[.armProbe d.probe_timeout],
        by simp [Dispatch.armProbePhase, htimer, StepRes.acts]⟩
    · exact ⟨[.armProbe d.probe_timeout, .assertProbeNone d.probe.isNone],
        by simp [Dispatch.armProbePhase, htimer, StepRes.acts]⟩
    · exact ⟨[.armProbe d.probe_timeout, .assertProbeNone d.probe.isNone],
        by simp [Dispatch.armProbePhase, htimer, StepRes.acts]⟩

/-- The receive phase appends to the actions already emitted. -/
theorem recvPhase_acts_append {Req : Type} (d : Dispatch Req)
    (acts : List (Act Req)) :
    ∃ s, (Dispatch.recvPhase d acts).acts = acts ++ s := by
  cases hrx : d.rx with
  | nil =>
    obtain ⟨s, hs⟩ := armProbePhase_acts_append d (acts ++ [.pollRx])
    exact ⟨[Act.pollRx] ++ s, by simp [Dispatch.recvPhase, hrx, hs]⟩
  | cons x rest =>
    cases x with
    | item e =>
      exact ⟨[.pollRx, .call e.request e.tx, .assertProbeNone d.probe.isNone],
        by simp [Dispatch.recvPhase, hrx, StepRes.acts]⟩
    | closed => exact ⟨[.pollRx], by simp [Dispatch.recvPhase, hrx, StepRes.acts]⟩
    | pending =>
      obtain ⟨s, hs⟩ :=
        armProbePhase_acts_append { d with rx := rest } (acts ++ [.pollRx])
      exact ⟨[Act.pollRx] ++ s, by simp [Dispatch.recvPhase, hrx, hs]⟩
    | recvErr => exact ⟨[.pollRx], by simp [Dispatch.recvPhase, hrx, StepRes.acts]⟩

/-- With no probe armed, the readiness phase's first action is a
readiness poll. -/
theorem readyPhase_acts_head {Req : Type} (d : Dispatch Req) :
    ∃ tl, (Dispatch.readyPhase d).acts = .pollReady :: tl := by
  cases hi : d.inner with
  | nil => exact ⟨[], by simp [Dispatch.readyPhase, hi, StepRes.acts]⟩
  | cons r irest =>
    cases r with
    | ready =>
      obtain ⟨s, hs⟩ := recvPhase_acts_append { d with inner := irest } [.pollReady]
      exact ⟨s, by simp only [Dispatch.readyPhase, hi, hs, List.cons_append,
        List.nil_append]⟩
    | notReady => exact ⟨[], by simp [Dispatch.readyPhase, hi, StepRes.acts]⟩
    | err e =>
      exact ⟨(drainAll (Failed.mk e) d.rx).1,
        by simp [Dispatch.readyPhase, hi, StepRes.acts]⟩

/-- With no probe armed, the first action of a poll is a readiness
poll: the loop checks readiness before attempting any receive. -/
theorem pollLoop_head_pollReady {Req : Type} (fuel : Nat) (d : Dispatch Req)
    (hp : d.probe = none) :
    (Dispatch.pollLoop (fuel + 1) d).1.head? = some Act.pollReady := by
  obtain ⟨s, hs⟩ := pollLoop_trace_decomp fuel d
  obtain ⟨tl, htl⟩ := readyPhase_acts_head d
  have hstep : Dispatch.step d = Dispatch.readyPhase d := by
    simp [Dispatch.step, hp]
  rw [hs, hstep, htl]
  simp

/-- Claim C6 (amended): after the loop takes an envelope and dispatches
it to the inner service, it returns to the top of the loop with the
probe field unchanged; in the stated situation (no probe armed, service
ready), the very next action of the continuing loop is a readiness
re-poll — i.e. the loop re-polls the inner service's readiness before
attempting to take the next envelope. -/
theorem dispatch_repolls_before_next_recv {Req : Type} (fuel : Nat)
    (d : Dispatch Req) (e : InFlight Req) (irest : List ReadyRes)
    (rrest : List (RxRes Req))
    (hp : d.probe = none) (hi : d.inner = .ready :: irest)
    (hrx : d.rx = .item e :: rrest) :
    Dispatch.pollLoop (fuel + 1) d =
      ([.pollReady, .pollRx, .call e.request e.tx, .assertProbeNone true] ++
        (Dispatch.pollLoop fuel { d with inner := irest, rx := rrest }).1,
       (Dispatch.pollLoop fuel { d with inner := irest, rx := rrest }).2.1,
       (Dispatch.pollLoop fuel { d with inner := irest, rx := rrest }).2.2) ∧
    (∀ fuel2 : Nat,
      (Dispatch.pollLoop (fuel2 + 1)
        { d with inner := irest, rx := rrest }).1.head?
        = some Act.pollReady) := by
  constructor
  · simp [Dispatch.pollLoop, Dispatch.step, hp, Dispatch.readyPhase, hi,
      Dispatch.recvPhase, hrx]
  · intro fuel2
    exact pollLoop_head_pollReady fuel2 _ (by simp [hp])

/-- Witness for the amended C6 at a concrete input. -/
theorem dispatch_repolls_before_next_recv_witness :
    ({ inner := [.ready, .ready], rx := [.item ⟨5, 1⟩, .closed], timer := [],
       probe_timeout := 3, probe := none } : Dispatch Nat).probe = none ∧
    (Dispatch.pollLoop 1
      ({ inner := [.ready], rx := [.closed], timer := [],
         probe_timeout := 3, probe := none } : Dispatch Nat)).1.head?
      = some Act.pollReady :=
  ⟨rfl,
    (dispatch_repolls_before_next_recv 0
      ({ inner := [.ready, .ready], rx := [.item ⟨5, 1⟩, .closed], timer := [],
         probe_timeout := 3, probe := none } : Dispatch Nat)
      ⟨5, 1⟩ [.ready] [.closed] rfl rfl rfl).2 0⟩

/-- While a probe is armed and every timer poll reports not-yet-elapsed,
the loop never polls the inner service's readiness. -/
theorem probeArmed_no_pollReady {Req : Type} (fuel : Nat) (d : Dispatch Req)
    (hp : d.probe = some ()) (ht : ∀ u ∈ d.timer, u = TimerRes.notYet) :
    Act.pollReady ∉ (Dispatch.pollLoop fuel d).1 := by
  induction fuel generalizing d with
  | zero => simp [Dispatch.pollLoop]
  | succ n ih =>
    cases htimer : d.timer with
    | nil =>
      have hs : Dispatch.step d = Dispatch.recvPhase d [] := by
        simp [Dispatch.step, hp, htimer]
      cases hrx : d.rx with
      | nil =>
        simp [Dispatch.pollLoop, hs, Dispatch.recvPhase, hrx,
          Dispatch.armProbePhase, htimer]
      | cons x rest =>
        cases x with
        | closed => simp [Dispatch.pollLoop, hs, Dispatch.recvPhase, hrx]
        | recvErr => simp [Dispatch.pollLoop, hs, Dispatch.recvPhase, hrx]
        | pending =>
          simp [Dispatch.pollLoop, hs, Dispatch.recvPhase, hrx,
            Dispatch.armProbePhase, htimer]
        | item e =>
          have ih2 := ih { d with rx := rest } (by simp [hp])
            (by simp [htimer])
          simpa [Dispatch.pollLoop, hs, Dispatch.recvPhase, hrx] using ih2
    | cons u trest =>
      have hu : u = TimerRes.notYet := ht u (by simp [htimer])
      subst hu
      have httl : ∀ v ∈ trest, v = TimerRes.notYet := fun v hv =>
        ht v (by simp [htimer, hv])
      have hs : Dispatch.step d
          = Dispatch.recvPhase { d with timer := trest } [] := by
        simp [Dispatch.step, hp, htimer]
      cases hrx : d.rx with
      | nil =>
        cases htr : trest with
        | nil =>
          simp [Dispatch.pollLoop, hs, Dispatch.recvPhase, hrx,
            Dispatch.armProbePhase, htr]
        | cons v t2 =>
          have hv : v = TimerRes.notYet := httl v (by simp [htr])
          subst hv
          simp [Dispatch.pollLoop, hs, Dispatch.recvPhase, hrx,
            Dispatch.armProbePhase, htr]
      | cons x rest =>
        cases x with
        | closed => simp [Dispatch.pollLoop, hs, Dispatch.recvPhase, hrx]
        | recvErr => simp [Dispatch.pollLoop, hs, Dispatch.recvPhase, hrx]
        | pending =>
          cases htr : trest with
          | nil =>
            simp [Dispatch.pollLoop, hs, Dispatch.recvPhase, hrx,
              Dispatch.armProbePhase, htr]
          | cons v t2 =>
            have hv : v = TimerRes.notYet := httl v (by simp [htr])
            subst hv
            simp [Dispatch.pollLoop, hs, Dispatch.recvPhase, hrx,
              Dispatch.armProbePhase, htr]
        | item e =>
          have ih2 := ih { d with timer := trest, rx := rest } (by simp [hp])
            (by intro v hv; exact httl v (by simpa using hv))
          simpa [Dispatch.pollLoop, hs, Dispatch.recvPhase, hrx] using ih2

/-- Claim C7: (i) with no probe armed, a ready inner service and an
empty, open channel, the loop arms a probe for the configured idle
interval `probe_timeout` and suspends; (ii) while the armed probe
reports not-yet-elapsed, the loop never re-polls the inner service's
readiness; (iii) once the channel reports closed, the loop terminates
with the normal (non-error) completion value `Ok(Ready(()))`. -/
theorem dispatch_idle_probe_and_close {Req : Type} :
    (∀ (fuel : Nat) (d : Dispatch Req) (irest : List ReadyRes)
        (rrest : List (RxRes Req)),
      d.probe = none → d.inner = .ready :: irest → d.rx = .pending :: rrest →
      d.timer = [] →
      Dispatch.pollLoop (fuel + 1) d =
        ([.pollReady, .pollRx, .armProbe d.probe_timeout], .notReady,
          { d with inner := irest, rx := rrest, probe := some () })) ∧
    (∀ (fuel : Nat) (d : Dispatch Req),
      d.probe = some () → (∀ u ∈ d.timer, u = TimerRes.notYet) →
      Act.pollReady ∉ (Dispatch.pollLoop fuel d).1) ∧
    (∀ (fuel : Nat) (d : Dispatch Req) (irest : List ReadyRes)
        (rrest : List (RxRes Req)),
      d.probe = none → d.inner = .ready :: irest → d.rx = .closed :: rrest →
      Dispatch.pollLoop (fuel + 1) d =
        ([.pollReady, .pollRx], .readyOk,
          { d with inner := irest, rx := rrest })) := by
  refine ⟨?_, ?_, ?_⟩
  · intro fuel d irest rrest hp hi hrx htimer
    simp [Dispatch.pollLoop, Dispatch.step, hp, Dispatch.readyPhase, hi,
      Dispatch.recvPhase, hrx, Dispatch.armProbePhase, htimer]
  · intro fuel d hp ht
    exact probeArmed_no_pollReady fuel d hp ht
  · intro fuel d irest rrest hp hi hrx
    simp [Dispatch.pollLoop, Dispatch.step, hp, Dispatch.readyPhase, hi,
      Dispatch.recvPhase, hrx]

/-- Witness for C7 at concrete inputs. -/
theorem dispatch_idle_probe_and_close_witness :
    Dispatch.pollLoop 1
      ({ inner := [.ready], rx := [.pending], timer := [],
         probe_timeout := 9, probe := none } : Dispatch Nat) =
      ([.pollReady, .pollRx, .armProbe 9], .notReady,
       { inner := [], rx := [], timer := [], probe_timeout := 9,
         probe := some () }) ∧
    Act.pollReady ∉
      (Dispatch.pollLoop 3
        ({ inner := [], rx := [.item ⟨7, 1⟩], timer := [.notYet],
           probe_timeout := 5, probe := some () } : Dispatch Nat)).1 ∧
    Dispatch.pollLoop 1
      ({ inner := [.ready], rx := [.closed], timer := [],
         probe_timeout := 9, probe := none } : Dispatch Nat) =
      ([.pollReady, .pollRx], .readyOk,
       { inner := [], rx := [], timer := [], probe_timeout := 9,
         probe := none }) :=
  ⟨dispatch_idle_probe_and_close.1 0 _ [] [] rfl rfl rfl rfl,
    dispatch_idle_probe_and_close.2.1 3
      ({ inner := [], rx := [.item ⟨7, 1⟩], timer := [.notYet],
         probe_timeout := 5, probe := some () } : Dispatch Nat) rfl
      (by decide),
    dispatch_idle_probe_and_close.2.2 0 _ [] [] rfl rfl rfl⟩

/-- `callReqs` distributes over trace concatenation. -/
theorem callReqs_append {Req : Type} (a b : List (Act Req)) :
    callReqs (a ++ b) = callReqs a ++ callReqs b := by
  induction a with
  | nil => simp [callReqs]
  | cons x rest ih => cases x <;> simp [callReqs, ih]

/-- `replyTxs` distributes over trace concatenation. -/
theorem replyTxs_append {Req : Type} (a b : List (Act Req)) :
    replyTxs (a ++ b) = replyTxs a ++ replyTxs b := by
  induction a with
  | nil => simp [replyTxs]
  | cons x rest ih => cases x <;> simp [replyTxs, ih]

/-- The failure broadcast contains no dispatched call. -/
theorem callReqs_drainAll {Req : Type} (f : Failed) (rx : List (RxRes Req)) :
    callReqs (drainAll f rx).1 = [] := by
  induction rx with
  | nil => simp [drainAll, callReqs]
  | cons hd tl ih => cases hd <;> simp [drainAll, callReqs, ih]

/-- The failure broadcast replies exactly to the queued envelopes, in
order. -/
theorem replyTxs_drainAll {Req : Type} (f : Failed) (rx : List (RxRes Req)) :
    replyTxs (drainAll f rx).1 = leadingItemTxs rx := by
  induction rx with
  | nil => simp [drainAll, replyTxs, leadingItemTxs]
  | cons hd tl ih => cases hd <;> simp [drainAll, replyTxs, leadingItemTxs, ih]

/-- The envelopes queued right now are the first deliverable envelopes. -/
theorem leadingItemTxs_isPrefix {Req : Type} (rx : List (RxRes Req)) :
    (leadingItemTxs rx).IsPrefix (itemTxs rx) := by
  induction rx with
  | nil => exact List.nil_prefix
  | cons hd tl ih =>
    cases hd with
    | item e =>
      simpa [leadingItemTxs, itemTxs, List.cons_prefix_cons] using ih
    | closed => exact List.nil_prefix
    | pending => exact List.nil_prefix
    | recvErr => exact List.nil_prefix

/-- The probe-arming phase dispatches no call and leaves the channel
oracle untouched. -/
theorem arm_calls {Req : Type} (d : Dispatch Req) (acts : List (Act Req)) :
    (match Dispatch.armProbePhase d acts with
      | .done a _ _ => callReqs a = callReqs acts ∧ replyTxs a = replyTxs acts
      | .next a d2 => (callReqs a = callReqs acts ∧ replyTxs a = replyTxs acts)
          ∧ d2.rx = d.rx) := by
  cases ht : d.timer with
  | nil =>
    simp [Dispatch.armProbePhase, ht, callReqs_append, replyTxs_append,
      callReqs, replyTxs]
  | cons t trest =>
    cases t <;>
      simp [Dispatch.armProbePhase, ht, callReqs_append, replyTxs_append,
        callReqs, replyTxs]

/-- The receive phase dispatches envelopes in channel order: its calls
(and reply targets) extend the actions already emitted by exactly the
envelopes it takes, in order. -/
theorem recv_fifo {Req : Type} (d : Dispatch Req) (acts : List (Act Req))
    (hc : callReqs acts = []) (hr : replyTxs acts = []) :
    (match Dispatch.recvPhase d acts with
      | .done a _ _ => (callReqs a).IsPrefix (rxItems d.rx) ∧
          (replyTxs a).IsPrefix (itemTxs d.rx)
      | .next a d2 =>
          (∀ X : List (Req × Nat), X.IsPrefix (rxItems d2.rx) →
            (callReqs a ++ X).IsPrefix (rxItems d.rx)) ∧
          (∀ Y : List Nat, Y.IsPrefix (itemTxs d2.rx) →
            (replyTxs a ++ Y).IsPrefix (itemTxs d.rx))) := by
  cases hrx : d.rx with
  | nil =>
    have h := arm_calls d (acts ++ [Act.pollRx])
    cases harm : Dispatch.armProbePhase d (acts ++ [Act.pollRx]) with
    | done a r d2 =>
      rw [harm] at h
      simp [Dispatch.recvPhase, hrx, harm, h.1, h.2, hc, hr,
        callReqs_append, replyTxs_append, callReqs, replyTxs]
    | next a d2 =>
      rw [harm] at h
      simp only [Dispatch.recvPhase, hrx, harm]
      have hc2 : callReqs a = [] := by
        simp [h.1.1, hc, callReqs_append, callReqs]
      have hr2 : replyTxs a = [] := by
        simp [h.1.2, hr, replyTxs_append, replyTxs]
      refine ⟨fun X hX => ?_, fun Y hY => ?_⟩
      · simpa [hc2, hrx, h.2] using hX
      · simpa [hr2, hrx, h.2] using hY
  | cons x rest =>
    cases x with
    | closed =>
      simp [Dispatch.recvPhase, hrx, hc, hr, callReqs_append, replyTxs_append,
        callReqs, replyTxs]
    | recvErr =>
      simp [Dispatch.recvPhase, hrx, hc, hr, callReqs_append, replyTxs_append,
        callReqs, replyTxs]
    | item e =>
      simp only [Dispatch.recvPhase, hrx]
      refine ⟨fun X hX => ?_, fun Y hY => ?_⟩
      · have : callReqs (acts ++
            [Act.pollRx, Act.call e.request e.tx,
             Act.assertProbeNone d.probe.isNone]) = [(e.request, e.tx)] := by
          simp [callReqs_append, callReqs, hc]
        rw [this]
        simp only [rxItems, List.cons_append, List.nil_append]
        exact List.cons_prefix_cons.mpr ⟨rfl, by simpa using hX⟩
      · have : replyTxs (acts ++
            [Act.pollRx, Act.call e.request e.tx,
             Act.assertProbeNone d.probe.isNone]) = [e.tx] := by
          simp [replyTxs_append, replyTxs, hr]
        rw [this]
        simp only [itemTxs, List.cons_append, List.nil_append]
        exact List.cons_prefix_cons.mpr ⟨rfl, by simpa using hY⟩
    | pending =>
      have h := arm_calls { d with rx := rest } (acts ++ [Act.pollRx])
      cases harm : Dispatch.armProbePhase { d with rx := rest }
          (acts ++ [Act.pollRx]) with
      | done a r d2 =>
        rw [harm] at h
        simp [Dispatch.recvPhase, hrx, harm, h.1, h.2, hc, hr,
          callReqs_append, replyTxs_append, callReqs, replyTxs]
      | next a d2 =>
        rw [harm] at h
        simp only [Dispatch.recvPhase, hrx, harm]
        have hc2 : callReqs a = [] := by
          simp [h.1.1, hc, callReqs_append, callReqs]
        have hr2 : replyTxs a = [] := by
          simp [h.1.2, hr, replyTxs_append, replyTxs]
        have hdrx : d2.rx = rest := by simpa using h.2
        refine ⟨fun X hX => ?_, fun Y hY => ?_⟩
        · simpa [hc2, rxItems, hdrx] using hX
        · simpa [hr2, itemTxs, hdrx] using hY

/-- The readiness phase preserves channel order: calls extend by the
envelopes taken, and the failure broadcast replies exactly to the queued
envelopes. -/
theorem ready_fifo {Req : Type} (d : Dispatch Req) :
    (match Dispatch.readyPhase d with
      | .done a _ _ => (callReqs a).IsPrefix (rxItems d.rx) ∧
          (replyTxs a).IsPrefix (itemTxs d.rx)
      | .next a d2 =>
          (∀ X : List (Req × Nat), X.IsPrefix (rxItems d2.rx) →
            (callReqs a ++ X).IsPrefix (rxItems d.rx)) ∧
          (∀ Y : List Nat, Y.IsPrefix (itemTxs d2.rx) →
            (replyTxs a ++ Y).IsPrefix (itemTxs d.rx))) := by
  cases hi : d.inner with
  | nil => simp [Dispatch.readyPhase, hi, callReqs, replyTxs]
  | cons r irest =>
    cases r with
    | notReady => simp [Dispatch.readyPhase, hi, callReqs, replyTxs]
    | err e =>
      simp only [Dispatch.readyPhase, hi]
      constructor
      · have : callReqs (Act.pollReady :: (drainAll (Failed.mk e) d.rx).1)
            = [] := by simp [callReqs, callReqs_drainAll]
        rw [this]
        exact List.nil_prefix
      · have : replyTxs (Act.pollReady :: (drainAll (Failed.mk e) d.rx).1)
            = leadingItemTxs d.rx := by simp [replyTxs, replyTxs_drainAll]
        rw [this]
        exact leadingItemTxs_isPrefix d.rx
    | ready =>
      have h := recv_fifo { d with inner := irest } [Act.pollReady]
        (by simp [callReqs]) (by simp [replyTxs])
      simpa [Dispatch.readyPhase, hi] using h

/-- One loop-body iteration preserves channel order of calls and
replies. -/
theorem step_fifo {Req : Type} (d : Dispatch Req) :
    (match Dispatch.step d with
      | .done a _ _ => (callReqs a).IsPrefix (rxItems d.rx) ∧
          (replyTxs a).IsPrefix (itemTxs d.rx)
      | .next a d2 =>
          (∀ X : List (Req × Nat), X.IsPrefix (rxItems d2.rx) →
            (callReqs a ++ X).IsPrefix (rxItems d.rx)) ∧
          (∀ Y : List Nat, Y.IsPrefix (itemTxs d2.rx) →
            (replyTxs a ++ Y).IsPrefix (itemTxs d.rx))) := by
  cases hp : d.probe with
  | none =>
    have h := ready_fifo d
    simpa [Dispatch.step, hp] using h
  | some u =>
    cases ht : d.timer with
    | nil =>
      have h := recv_fifo d [] rfl rfl
      simpa [Dispatch.step, hp, ht] using h
    | cons t trest =>
      cases t with
      | notYet =>
        have h := recv_fifo { d with timer := trest } [] rfl rfl
        simpa [Dispatch.step, hp, ht] using h
      | elapsed =>
        have h := ready_fifo { d with timer := trest, probe := none }
        simpa [Dispatch.step, hp, ht] using h
      | timerErr =>
        have h := ready_fifo { d with timer := trest, probe := none }
        simpa [Dispatch.step, hp, ht] using h

/-- Calls are dispatched in channel order, and reply targets follow
channel order, over a whole poll: both traces are prefixes of the
channel's envelope sequence. -/
theorem pollLoop_fifo {Req : Type} (fuel : Nat) (d : Dispatch Req) :
    (callReqs (Dispatch.pollLoop fuel d).1).IsPrefix (rxItems d.rx) ∧
    (replyTxs (Dispatch.pollLoop fuel d).1).IsPrefix (itemTxs d.rx) := by
  induction fuel generalizing d with
  | zero => constructor <;> exact List.nil_prefix
  | succ n ih =>
    have h := step_fifo d
    cases hs : Dispatch.step d with
    | done a r d2 =>
      rw [hs] at h
      have heq : Dispatch.pollLoop (n + 1) d = (a, r, d2) := by
        simp [Dispatch.pollLoop, hs]
      rw [heq]
      exact h
    | next a d2 =>
      rw [hs] at h
      have heq : (Dispatch.pollLoop (n + 1) d).1
          = a ++ (Dispatch.pollLoop n d2).1 := by
        simp [Dispatch.pollLoop, hs]
      rw [heq, callReqs_append, replyTxs_append]
      exact ⟨h.1 _ (ih d2).1, h.2 _ (ih d2).2⟩

/-- Claim C8: while the inner service stays ready, the dispatch loop
invokes the inner service for the received envelopes in exactly the
order they were received from the channel (strict FIFO call order):
the `(request, tx)` pairs of the dispatched calls form a prefix, in
order, of the channel's envelope sequence.  Completions of the spawned
calls are detached from the loop and unconstrained. -/
theorem dispatch_fifo_order {Req : Type} (fuel : Nat) (d : Dispatch Req)
    (_hready : ∀ r ∈ d.inner, r = ReadyRes.ready) :
    (callReqs (Dispatch.pollLoop fuel d).1).IsPrefix (rxItems d.rx) :=
  (pollLoop_fifo fuel d).1

/-- Witness for C8: three envelopes R1, R2, R3 while the service stays
ready — all three are dispatched, in order. -/
theorem dispatch_fifo_order_witness :
    (∀ r ∈ ([.ready, .ready, .ready] : List ReadyRes), r = ReadyRes.ready) ∧
    callReqs (Dispatch.pollLoop 7
      ({ inner := [.ready, .ready, .ready],
         rx := [.item ⟨10, 1⟩, .item ⟨20, 2⟩, .item ⟨30, 3⟩],
         timer := [], probe_timeout := 4,
         probe := none } : Dispatch Nat)).1
      = [(10, 1), (20, 2), (30, 3)] ∧
    (callReqs (Dispatch.pollLoop 7
      ({ inner := [.ready, .ready, .ready],
         rx := [.item ⟨10, 1⟩, .item ⟨20, 2⟩, .item ⟨30, 3⟩],
         timer := [], probe_timeout := 4,
         probe := none } : Dispatch Nat)).1).IsPrefix
      (rxItems ([.item ⟨10, 1⟩, .item ⟨20, 2⟩, .item ⟨30, 3⟩]
        : List (RxRes Nat))) :=
  ⟨by decide, by decide,
    dispatch_fifo_order 7
      ({ inner := [.ready, .ready, .ready],
         rx := [.item ⟨10, 1⟩, .item ⟨20, 2⟩, .item ⟨30, 3⟩],
         timer := [], probe_timeout := 4,
         probe := none } : Dispatch Nat) (by decide)⟩

/-- Claim C9: provided the envelopes carry pairwise distinct one-shot
reply senders, at most one reply is ever sent on each: across dispatched
calls and the failure broadcast together, each `tx` occurs at most once
in the reply targets of a poll's trace. -/
theorem dispatch_single_reply {Req : Type} (fuel : Nat) (d : Dispatch Req)
    (hnodup : (itemTxs d.rx).Nodup) :
    (replyTxs (Dispatch.pollLoop fuel d).1).Nodup ∧
    ∀ t : Nat, (replyTxs (Dispatch.pollLoop fuel d).1).count t ≤ 1 := by
  have hpre := (pollLoop_fifo fuel d).2
  have hnd := hnodup.sublist hpre.sublist
  exact ⟨hnd, fun t => List.nodup_iff_count_le_one.mp hnd t⟩

/-- Witness for C9 at a concrete input (a failure broadcast replying to
two queued envelopes). -/
theorem dispatch_single_reply_witness :
    (itemTxs ([.item ⟨10, 1⟩, .item ⟨20, 2⟩, .closed]
      : List (RxRes Nat))).Nodup ∧
    (replyTxs (Dispatch.pollLoop 5
      ({ inner := [.err 5], rx := [.item ⟨10, 1⟩, .item ⟨20, 2⟩, .closed],
         timer := [], probe_timeout := 4,
         probe := none } : Dispatch Nat)).1).Nodup ∧
    ∀ t : Nat, (replyTxs (Dispatch.pollLoop 5
      ({ inner := [.err 5], rx := [.item ⟨10, 1⟩, .item ⟨20, 2⟩, .closed],
         timer := [], probe_timeout := 4,
         probe := none } : Dispatch Nat)).1).count t ≤ 1 :=
  ⟨by decide,
    (dispatch_single_reply 5
      ({ inner := [.err 5], rx := [.item ⟨10, 1⟩, .item ⟨20, 2⟩, .closed],
         timer := [], probe_timeout := 4,
         probe := none } : Dispatch Nat) (by decide)).1,
    (dispatch_single_reply 5
      ({ inner := [.err 5], rx := [.item ⟨10, 1⟩, .item ⟨20, 2⟩, .closed],
         timer := [], probe_timeout := 4,
         probe := none } : Dispatch Nat) (by decide)).2⟩
